import Mathlib

/-!
# Verification of the atuin-bar core logic

Shallow embedding of the core logic of the `atuin-bar` repository
(`src-tauri/src/lib.rs` and `src-tauri/tests/atuin_integration_test.rs`):
the configuration store (`Config`, `load_config`, `update_config`), the
search argument builder and process invoker (`atuin_search`), and the
result line parser (`parse_atuin_line`).

File-system effects are modelled by an explicit state type `FsState`;
process execution is modelled by an oracle mapping an argument list to a
process outcome.  The compile-time platform switch
`cfg!(target_os = "macos")` is modelled by an explicit boolean parameter
`macos`.  Rust `u32` fields only ever hold small constants here, so they
are modelled as `Nat`.
-/

namespace AtuinBar

/-- Application configuration (struct `Config` in `lib.rs`). -/
structure Config where
  /-- Global shortcut to toggle the window. -/
  shortcut : String
  /-- Theme: "dark" or "light". -/
  theme : String
  /-- Maximum number of results to display. -/
  max_results : Nat
  /-- Window width in pixels. -/
  window_width : Nat
deriving DecidableEq, Repr

/-- `impl Default for Config`: the default record.  The shortcut is
platform-conditional (`cfg!(target_os = "macos")`). -/
def Config.default (macos : Bool) : Config :=
  { shortcut := if macos then "CommandOrControl+Shift+Space"
                else "Control+Shift+Space"
    theme := "dark"
    max_results := 20
    window_width := 700 }

/-- State of the config file on disk, as seen by `load_config` /
`update_config`: the OS config directory may be unresolvable
(`dirs::config_dir()` returned `None`), the file may be missing, reading
it may fail, or it holds some contents. -/
inductive FsState where
  | noConfigDir : FsState
  | missing : FsState
  | readError : FsState
  | content : String → FsState
deriving DecidableEq, Repr

/-! ## A TOML-subset parser

`load_config` deserializes the file with `toml::from_str` into `Config`
(with `#[serde(default)]`), which is external library code.

Modelled from the spec: the config file is "a commented key/value text
document ... with exactly four keys (`shortcut`, `theme`, `max_results`,
`window_width`); unknown or missing keys fall back to defaults; malformed
file is fully discarded in favor of defaults (not selectively merged)".
We model it as a line-based parser: blank lines and `#` comments are
skipped, each remaining line must be `key = value` with `value` either a
basic string (no quote or backslash inside) or an unsigned integer
literal; any line that fits neither form makes the whole document
malformed. -/

/-- A TOML scalar value: a basic string or an unsigned integer. -/
inductive TomlValue where
  | str : String → TomlValue
  | nat : Nat → TomlValue
deriving DecidableEq, Repr

/-- Characters treated as horizontal whitespace when trimming a line. -/
def isWsChar (c : Char) : Bool :=
  c = ' ' || c = '\t' || c = '\r'

/-- Trim whitespace from both ends of a character list. -/
def trimChars (l : List Char) : List Char :=
  ((l.dropWhile isWsChar).reverse.dropWhile isWsChar).reverse

/-- Numeric value of a list of decimal digit characters. -/
def digitsVal (l : List Char) : Nat :=
  l.foldl (fun a c => a * 10 + (c.toNat - 48)) 0

/-- Parse a scalar value: a double-quoted basic string (no quote or
backslash inside, nothing after the closing quote) or a run of decimal
digits. -/
def parseValue (l : List Char) : Option TomlValue :=
  match l with
  | '"' :: rest =>
    let content := rest.takeWhile (fun c => c ≠ '"' && c ≠ '\\')
    match rest.drop content.length with
    | '"' :: tail => if trimChars tail = [] then some (.str (String.mk content)) else none
    | _ => none
  | _ =>
    if l ≠ [] && l.all Char.isDigit then some (.nat (digitsVal l)) else none

/-- Split a character list at the first occurrence of `c`; `none` when `c`
does not occur. -/
def splitAtFirst (c : Char) (l : List Char) : Option (List Char × List Char) :=
  let before := l.takeWhile (fun x => x ≠ c)
  match l.drop before.length with
  | _ :: after => some (before, after)
  | [] => none

/-- Parse one line of the config file: `none` means the line is malformed,
`some none` a blank/comment line, `some (some kv)` a key/value pair. -/
def parseLine (l : List Char) : Option (Option (String × TomlValue)) :=
  let t := trimChars l
  if t = [] then some none
  else if t.head? = some '#' then some none
  else
    match splitAtFirst '=' t with
    | none => none
    | some (k, v) =>
      if trimChars k = [] then none
      else
        match parseValue (trimChars v) with
        | some tv => some (some (String.mk (trimChars k), tv))
        | none => none

/-- Split a character list on every occurrence of `c` (always returns at
least one piece). -/
def splitOnChar (c : Char) : List Char → List (List Char)
  | [] => [[]]
  | x :: xs =>
    if x = c then [] :: splitOnChar c xs
    else
      match splitOnChar c xs with
      | [] => [[x]]
      | h :: t => (x :: h) :: t

/-- Apply one key/value pair to a config record: a known key with a value
of the right type updates the field, a known key with a wrong-typed value
is a deserialization error, an unknown key is ignored. -/
def applyKV (c : Config) : String × TomlValue → Option Config
  | ("shortcut", .str v) => some { c with shortcut := v }
  | ("shortcut", _) => none
  | ("theme", .str v) => some { c with theme := v }
  | ("theme", _) => none
  | ("max_results", .nat v) => some { c with max_results := v }
  | ("max_results", _) => none
  | ("window_width", .nat v) => some { c with window_width := v }
  | ("window_width", _) => none
  | _ => some c

/-- Modelled from the spec: `toml::from_str::<Config>` (external library
code) on the four-key commented key/value document, with
`#[serde(default)]` filling missing keys from the platform default.
Returns `none` exactly when the document is malformed. -/
def toml_from_str (macos : Bool) (s : String) : Option Config :=
  match (splitOnChar '\n' s.data).mapM parseLine with
  | none => none
  | some lines =>
    (lines.filterMap id).foldlM applyKV (Config.default macos)

/-- The commented default config file written on first load (the literal
`default_config` string in `load_config`). -/
def default_config_template : String :=
  "# Atuin Bar Configuration\n\n# Global shortcut to toggle the window\n# Examples: \"CommandOrControl+Shift+Space\", \"Alt+Space\", \"Super+H\"\nshortcut = \"CommandOrControl+Shift+Space\"\n\n# Theme: \"dark\" or \"light\" (default: \"dark\")\ntheme = \"dark\"\n\n# Maximum number of results to display (default: 20)\nmax_results = 20\n\n# Window width in pixels (default: 700)\nwindow_width = 700\n"

/-- `load_config`: load configuration from file, falling back to defaults.
Returns the loaded config together with the file state after the call
(on first run the commented default template is written to disk; write
failures are ignored by the source, so the write is modelled as
succeeding).  Total: the Rust function returns `Config`, never an error. -/
def load_config (macos : Bool) : FsState → Config × FsState
  | .noConfigDir => (Config.default macos, .noConfigDir)
  | .missing => (Config.default macos, .content default_config_template)
  | .readError => (Config.default macos, .readError)
  | .content s =>
    (match toml_from_str macos s with
     | some c => c
     | none => Config.default macos,
     .content s)

/-- Overlay the provided fields onto a config record (the four
`if let Some(x) = ...` updates in `update_config`). -/
def apply_updates (c : Config) (shortcut theme : Option String)
    (max_results window_width : Option Nat) : Config :=
  { shortcut := shortcut.getD c.shortcut
    theme := theme.getD c.theme
    max_results := max_results.getD c.max_results
    window_width := window_width.getD c.window_width }

/-- The `format!` template of `update_config`: the updated values are
interpolated into the commented file format with no escaping. -/
def serialize_config (c : Config) : String :=
  "# Atuin Bar Configuration\n\n# Global shortcut to toggle the window\n# Examples: \"CommandOrControl+Shift+Space\", \"Alt+Space\", \"Super+H\"\nshortcut = \"" ++ c.shortcut ++
  "\"\n\n# Theme: \"dark\" or \"light\" (default: \"dark\")\ntheme = \"" ++ c.theme ++
  "\"\n\n# Maximum number of results to display (default: 20)\nmax_results = " ++ toString c.max_results ++
  "\n\n# Window width in pixels (default: 700)\nwindow_width = " ++ toString c.window_width ++ "\n"

/-- `update_config`: re-load the current config, overlay the provided
fields, serialize and write the whole file back.  Fails when the config
directory cannot be determined or when the write fails (`writeOk` models
whether `fs::write` succeeds). -/
def update_config (macos : Bool) (fs : FsState) (writeOk : Bool)
    (shortcut theme : Option String) (max_results window_width : Option Nat) :
    Except String (Config × FsState) :=
  match fs with
  | .noConfigDir => .error "Could not determine config path"
  | _ =>
    let cfg := apply_updates (load_config macos fs).1 shortcut theme max_results window_width
    if writeOk then .ok (cfg, .content (serialize_config cfg))
    else .error "Failed to write config"

/-! ## Result line parser (`parse_atuin_line` in the integration test) -/

/-- Join pieces with the character `c` between them (left inverse of
`splitOnChar`). -/
def joinWith (c : Char) : List (List Char) → List Char
  | [] => []
  | [x] => x
  | x :: xs => x ++ c :: joinWith c xs

/-- Rust's `str::rsplitn(n, c)` collected into a list: the last `n - 1`
`c`-separated fields in right-to-left order, followed by the remaining
prefix; when the string has at most `n` fields, all of them in
right-to-left order. -/
def rsplitnChar (n : Nat) (c : Char) (s : List Char) : List (List Char) :=
  let ps := splitOnChar c s
  if ps.length ≤ n then ps.reverse
  else (ps.drop (ps.length - (n - 1))).reverse ++ [joinWith c (ps.take (ps.length - (n - 1)))]

/-- `parse_atuin_line`: split the line from the right into at most 4
segments on `'|'`; with exactly 4 segments, return
(command, exit, directory, time), where the command segment absorbs any
extra delimiters. -/
def parse_atuin_line (line : String) : Option (String × String × String × String) :=
  match rsplitnChar 4 '|' line.data with
  | [p0, p1, p2, p3] => some (String.mk p3, String.mk p2, String.mk p1, String.mk p0)
  | _ => none

/-! ## Search argument builder and process invoker (`atuin_search`) -/

/-- Search filters for atuin queries (struct `SearchFilters`). -/
structure SearchFilters where
  /-- Filter by directory path. -/
  directory : Option String
  /-- Filter by exit code: "success" (0), "failure" (non-0), or `none`. -/
  exit_filter : Option String
  /-- Time range: "1h", "24h", "7d", "30d", or `none`. -/
  time_range : Option String
deriving DecidableEq, Repr

/-- `#[derive(Default)]` for `SearchFilters`: all fields `None`. -/
def SearchFilters.default : SearchFilters :=
  { directory := none, exit_filter := none, time_range := none }

/-- The fixed leading arguments of every atuin invocation. -/
def atuin_base_args : List String :=
  ["search", "--search-mode", "prefix", "--limit", "50", "--format",
   "{command}|{exit}|{duration}|{directory}|{time}"]

/-- Arguments contributed by the directory filter. -/
def directory_args : Option String → List String
  | some dir => if dir ≠ "" then ["--cwd", dir] else []
  | none => []

/-- Arguments contributed by the exit-code filter. -/
def exit_filter_args : Option String → List String
  | some ef =>
    if ef = "success" then ["--exit", "0"]
    else if ef = "failure" then ["--exclude-exit", "0"]
    else []
  | none => []

/-- Arguments contributed by the time-range filter. -/
def time_range_args : Option String → List String
  | some tr =>
    match (if tr = "1h" then some "1 hour ago"
           else if tr = "24h" then some "1 day ago"
           else if tr = "7d" then some "7 days ago"
           else if tr = "30d" then some "30 days ago"
           else none : Option String) with
    | some after => ["--after", after]
    | none => []
  | none => []

/-- The full argument list `atuin_search` passes to the `atuin` binary, in
the order the source appends them: fixed flags, directory filter, exit
filter, time filter, then the query as the final positional argument. -/
def atuin_args (query : String) (filters : Option SearchFilters) : List String :=
  let f := filters.getD SearchFilters.default
  atuin_base_args ++ directory_args f.directory ++ exit_filter_args f.exit_filter ++
    time_range_args f.time_range ++ [query]

/-- Outcome of a completed `atuin` process: its exit status, the UTF-8
decoding of its stdout bytes (`none` when `String::from_utf8` fails, with
`stdout_err` the decode error's message), and the lossily decoded stderr. -/
structure ProcOutput where
  success : Bool
  stdout_utf8 : Option String
  stdout_err : String
  stderr_lossy : String

/-- Result of `Command::output()`: a spawn error carrying the OS error
message, or a completed process. -/
inductive ProcResult where
  | spawnErr : String → ProcResult
  | completed : ProcOutput → ProcResult

/-- `atuin_search`: build the argument list, run the external process
(modelled by the oracle `proc`, keyed by the argument list), and map the
outcome: spawn failure and non-zero exit become errors embedding the OS
error / captured stderr, success returns the decoded stdout unless
decoding fails. -/
def atuin_search (proc : List String → ProcResult)
    (query : String) (filters : Option SearchFilters) : Except String String :=
  match proc (atuin_args query filters) with
  | .spawnErr e => .error ("Failed to execute atuin command: " ++ e)
  | .completed out =>
    if out.success then
      match out.stdout_utf8 with
      | some s => .ok s
      | none => .error ("Failed to parse atuin output: " ++ out.stdout_err)
    else
      .error ("atuin command failed: " ++ out.stderr_lossy)

/-- The decimal digit characters of `n`, most significant first: a
structural version of core's fuel-based `Nat.toDigitsCore`, used to reason
about the `format!`-interpolated numeric fields. -/
def digitsRep (n : Nat) : List Char :=
  if h : n < 10 then [Nat.digitChar n]
  else digitsRep (n / 10) ++ [Nat.digitChar (n % 10)]
decreasing_by exact Nat.div_lt_self (by omega) (by omega)

/-! ## Lemmas about decimal digit strings -/

theorem toDigitsCore_eq_digitsRep (fuel : Nat) :
    ∀ (n : Nat) (ds : List Char), n < fuel →
      Nat.toDigitsCore 10 fuel n ds = digitsRep n ++ ds := by
  induction fuel with
  | zero => intro n ds h; omega
  | succ fuel ih =>
    intro n ds h
    have hstep : Nat.toDigitsCore 10 (fuel + 1) n ds =
        if n / 10 = 0 then Nat.digitChar (n % 10) :: ds
        else Nat.toDigitsCore 10 fuel (n / 10) (Nat.digitChar (n % 10) :: ds) := rfl
    rw [hstep]
    by_cases h0 : n / 10 = 0
    · rw [if_pos h0]
      have hn : n < 10 := by omega
      rw [digitsRep, dif_pos hn, Nat.mod_eq_of_lt hn]
      rfl
    · have hrep : digitsRep n = digitsRep (n / 10) ++ [Nat.digitChar (n % 10)] := by
        rw [digitsRep]
        exact dif_neg (by omega)
      rw [if_neg h0, ih (n / 10) _ (by omega), hrep, List.append_assoc]
      rfl

theorem toString_nat_data (n : Nat) : (toString n : String).data = digitsRep n := by
  have h1 : (toString n : String).data = Nat.toDigitsCore 10 (n + 1) n [] := rfl
  rw [h1, toDigitsCore_eq_digitsRep (n + 1) n [] (Nat.lt_succ_self n), List.append_nil]

theorem digitsRep_ne_nil (n : Nat) : digitsRep n ≠ [] := by
  rw [digitsRep]
  split
  · simp
  · simp

theorem digitsRep_all_digit (n : Nat) : ∀ c ∈ digitsRep n, c.isDigit = true := by
  induction n using Nat.strong_induction_on with
  | _ n ih =>
    have hdig : ∀ k, k < 10 → (Nat.digitChar k).isDigit = true := by decide
    by_cases h : n < 10
    · rw [digitsRep, dif_pos h]
      intro c hc
      simp only [List.mem_singleton] at hc
      subst hc
      exact hdig n h
    · rw [digitsRep, dif_neg h]
      intro c hc
      rcases List.mem_append.mp hc with hc | hc
      · exact ih (n / 10) (Nat.div_lt_self (by omega) (by omega)) c hc
      · simp only [List.mem_singleton] at hc
        subst hc
        exact hdig (n % 10) (Nat.mod_lt _ (by omega))

theorem digitsVal_digitsRep (n : Nat) : digitsVal (digitsRep n) = n := by
  induction n using Nat.strong_induction_on with
  | _ n ih =>
    have hdig : ∀ k, k < 10 → (Nat.digitChar k).toNat - 48 = k := by decide
    by_cases h : n < 10
    · rw [digitsRep, dif_pos h]
      have : digitsVal [Nat.digitChar n] = 0 * 10 + ((Nat.digitChar n).toNat - 48) := rfl
      rw [this, hdig n h]
      omega
    · rw [digitsRep, dif_neg h]
      have hfold : digitsVal (digitsRep (n / 10) ++ [Nat.digitChar (n % 10)])
          = digitsVal (digitsRep (n / 10)) * 10 + ((Nat.digitChar (n % 10)).toNat - 48) := by
        unfold digitsVal
        rw [List.foldl_append]
        rfl
      rw [hfold, ih (n / 10) (Nat.div_lt_self (by omega) (by omega)),
        hdig (n % 10) (Nat.mod_lt _ (by omega))]
      omega

theorem isDigit_char_facts (c : Char) (h : c.isDigit = true) :
    c ≠ '\n' ∧ c ≠ '"' ∧ c ≠ '\\' ∧ isWsChar c = false ∧ c ≠ '#' ∧ c ≠ '=' := by
  refine ⟨fun hc => ?_, fun hc => ?_, fun hc => ?_, ?_, fun hc => ?_, fun hc => ?_⟩
  · subst hc; exact absurd h (by decide)
  · subst hc; exact absurd h (by decide)
  · subst hc; exact absurd h (by decide)
  · cases hw : isWsChar c with
    | false => rfl
    | true =>
      have h3 : (c = ' ' ∨ c = '\t') ∨ c = '\r' := by
        simpa [isWsChar] using hw
      rcases h3 with (rfl | rfl) | rfl <;> exact absurd h (by decide)
  · subst hc; exact absurd h (by decide)
  · subst hc; exact absurd h (by decide)

/-! ## Lemmas about `splitOnChar`, `joinWith` and `rsplitnChar` -/

theorem splitOnChar_cons_pos (c : Char) (xs : List Char) :
    splitOnChar c (c :: xs) = [] :: splitOnChar c xs := by
  simp [splitOnChar]

theorem splitOnChar_ne_nil (c : Char) (s : List Char) : splitOnChar c s ≠ [] := by
  induction s with
  | nil => simp [splitOnChar]
  | cons x xs ih =>
    simp only [splitOnChar]
    split
    · simp
    · match h : splitOnChar c xs with
      | [] => exact absurd h ih
      | h' :: t => simp

theorem splitOnChar_cons_neg (c x : Char) (xs : List Char) (hx : x ≠ c)
    (h : List Char) (t : List (List Char)) (hs : splitOnChar c xs = h :: t) :
    splitOnChar c (x :: xs) = (x :: h) :: t := by
  simp [splitOnChar, if_neg hx, hs]

theorem splitOnChar_of_not_mem (c : Char) (s : List Char) (h : c ∉ s) :
    splitOnChar c s = [s] := by
  induction s with
  | nil => rfl
  | cons x xs ih =>
    simp only [List.mem_cons, not_or] at h
    have hx : x ≠ c := fun hxc => h.1 hxc.symm
    exact splitOnChar_cons_neg c x xs hx xs [] (ih h.2)

theorem splitOnChar_append (c : Char) (xs ys : List Char) :
    splitOnChar c (xs ++ c :: ys) = splitOnChar c xs ++ splitOnChar c ys := by
  induction xs with
  | nil => rw [List.nil_append, splitOnChar_cons_pos]; rfl
  | cons x xs ih =>
    by_cases hx : x = c
    · subst hx
      rw [List.cons_append, splitOnChar_cons_pos, splitOnChar_cons_pos, ih, List.cons_append]
    · match h : splitOnChar c xs with
      | [] => exact absurd h (splitOnChar_ne_nil c xs)
      | h' :: t =>
        rw [h] at ih
        rw [List.cons_append, splitOnChar_cons_neg c x _ hx h' (t ++ splitOnChar c ys) ih,
          splitOnChar_cons_neg c x xs hx h' t h, List.cons_append]

theorem joinWith_cons₂ (c : Char) (a b : List Char) (l : List (List Char)) :
    joinWith c (a :: b :: l) = a ++ c :: joinWith c (b :: l) := rfl

theorem joinWith_splitOnChar (c : Char) (s : List Char) :
    joinWith c (splitOnChar c s) = s := by
  induction s with
  | nil => rfl
  | cons x xs ih =>
    by_cases hx : x = c
    · subst hx
      match h : splitOnChar x xs with
      | [] => exact absurd h (splitOnChar_ne_nil x xs)
      | h' :: t =>
        rw [splitOnChar_cons_pos, h, joinWith_cons₂, List.nil_append, ← h, ih]
    · match h : splitOnChar c xs with
      | [] => exact absurd h (splitOnChar_ne_nil c xs)
      | [h'] =>
        rw [h] at ih
        rw [splitOnChar_cons_neg c x xs hx h' [] h]
        show x :: h' = x :: xs
        rw [show joinWith c [h'] = h' from rfl] at ih
        rw [ih]
      | h' :: t' :: t =>
        rw [h] at ih
        rw [splitOnChar_cons_neg c x xs hx h' (t' :: t) h, joinWith_cons₂,
          List.cons_append, ← joinWith_cons₂, ih]

/-- Rust's `rsplitn(4, c)` on a string whose split decomposes as the split
of a prefix followed by three delimiter-free fields yields exactly those
fields right-to-left, then the prefix. -/
theorem rsplitnChar_four (c : Char) (s pre e d t : List Char)
    (h : splitOnChar c s = splitOnChar c pre ++ [e, d, t]) :
    rsplitnChar 4 c s = [t, d, e, pre] := by
  have hval : rsplitnChar 4 c s =
      (if (splitOnChar c s).length ≤ 4 then (splitOnChar c s).reverse
       else ((splitOnChar c s).drop ((splitOnChar c s).length - 3)).reverse ++
         [joinWith c ((splitOnChar c s).take ((splitOnChar c s).length - 3))]) := rfl
  obtain ⟨q0, q, hq⟩ : ∃ q0 q, splitOnChar c pre = q0 :: q := by
    match hpre : splitOnChar c pre with
    | [] => exact absurd hpre (splitOnChar_ne_nil c pre)
    | q0 :: q => exact ⟨q0, q, rfl⟩
  have hjoin : joinWith c (splitOnChar c pre) = pre := joinWith_splitOnChar c pre
  rw [hq] at hjoin
  have h' : splitOnChar c s = (q0 :: q) ++ [e, d, t] := by rw [h, hq]
  rcases q with _ | ⟨q1, q⟩
  · have hpre : q0 = pre := hjoin
    subst hpre
    rw [hval, h']
    simp
  · rw [hval, h']
    have hlen : ((q0 :: q1 :: q) ++ [e, d, t]).length = q.length + 2 + 3 := by
      simp [List.length_append]
    rw [hlen, if_neg (by omega)]
    have hdt : q.length + 2 + 3 - 3 = (q0 :: q1 :: q).length := by
      simp
    rw [hdt, List.drop_left, List.take_left, hjoin]
    simp

/-! ## Claim theorems for the result line parser -/

/-- C2: for every well-formed 4-field line `cmd|exit|dir|time` whose
`exit`, `dir` and `time` fields contain no `'|'`, parsing with
`parse_atuin_line` and re-joining the four resulting fields with `'|'`
reproduces the original line exactly, including when `cmd` itself
contains the delimiter. -/
theorem parse_atuin_line_roundtrip (cmd e d t : String)
    (he : '|' ∉ e.data) (hd : '|' ∉ d.data) (ht : '|' ∉ t.data) :
    ∃ c₁ e₁ d₁ t₁,
      parse_atuin_line (cmd ++ "|" ++ e ++ "|" ++ d ++ "|" ++ t) = some (c₁, e₁, d₁, t₁) ∧
      c₁ ++ "|" ++ e₁ ++ "|" ++ d₁ ++ "|" ++ t₁ = cmd ++ "|" ++ e ++ "|" ++ d ++ "|" ++ t := by
  refine ⟨cmd, e, d, t, ?_, rfl⟩
  have hbar : ("|" : String).data = ['|'] := rfl
  have hdata : (cmd ++ "|" ++ e ++ "|" ++ d ++ "|" ++ t).data
      = cmd.data ++ '|' :: (e.data ++ '|' :: (d.data ++ '|' :: t.data)) := by
    simp [String.data_append, hbar]
  have hsplit : splitOnChar '|' ((cmd ++ "|" ++ e ++ "|" ++ d ++ "|" ++ t).data)
      = splitOnChar '|' cmd.data ++ [e.data, d.data, t.data] := by
    rw [hdata, splitOnChar_append, splitOnChar_append, splitOnChar_append,
      splitOnChar_of_not_mem _ _ he, splitOnChar_of_not_mem _ _ hd,
      splitOnChar_of_not_mem _ _ ht]
    rfl
  have h4 := rsplitnChar_four '|' _ cmd.data e.data d.data t.data hsplit
  unfold parse_atuin_line
  rw [h4]

/-- C2 witness: the round-trip at a concrete line whose command contains
the delimiter. -/
theorem parse_atuin_line_roundtrip_witness :
    ('|' ∉ ("0" : String).data) ∧ ('|' ∉ ("/home/u" : String).data) ∧
      ('|' ∉ ("2024-05-01" : String).data) ∧
      (∃ c₁ e₁ d₁ t₁,
        parse_atuin_line ("echo a|b" ++ "|" ++ "0" ++ "|" ++ "/home/u" ++ "|" ++ "2024-05-01")
          = some (c₁, e₁, d₁, t₁) ∧
        c₁ ++ "|" ++ e₁ ++ "|" ++ d₁ ++ "|" ++ t₁
          = "echo a|b" ++ "|" ++ "0" ++ "|" ++ "/home/u" ++ "|" ++ "2024-05-01") :=
  ⟨by decide, by decide, by decide,
    parse_atuin_line_roundtrip "echo a|b" "0" "/home/u" "2024-05-01"
      (by decide) (by decide) (by decide)⟩

/-- C9: a line in the five-field format actually requested by
`atuin_search` (`c|e|u|d|t` with `e`, `u`, `d`, `t` delimiter-free)
parses to `some`, but the fields are misaligned: the command field
absorbs the real exit code (`c ++ "|" ++ e`), the exit field holds the
duration `u`, while directory and time are correct. -/
theorem parse_atuin_line_five_fields (c e u d t : String)
    (he : '|' ∉ e.data) (hu : '|' ∉ u.data) (hd : '|' ∉ d.data) (ht : '|' ∉ t.data) :
    parse_atuin_line (c ++ "|" ++ e ++ "|" ++ u ++ "|" ++ d ++ "|" ++ t)
      = some (c ++ "|" ++ e, u, d, t) := by
  have hbar : ("|" : String).data = ['|'] := rfl
  have hdata : (c ++ "|" ++ e ++ "|" ++ u ++ "|" ++ d ++ "|" ++ t).data
      = (c ++ "|" ++ e).data ++ '|' :: (u.data ++ '|' :: (d.data ++ '|' :: t.data)) := by
    simp [String.data_append, hbar]
  have hsplit : splitOnChar '|' ((c ++ "|" ++ e ++ "|" ++ u ++ "|" ++ d ++ "|" ++ t).data)
      = splitOnChar '|' (c ++ "|" ++ e).data ++ [u.data, d.data, t.data] := by
    rw [hdata, splitOnChar_append, splitOnChar_append, splitOnChar_append,
      splitOnChar_of_not_mem _ _ hu, splitOnChar_of_not_mem _ _ hd,
      splitOnChar_of_not_mem _ _ ht]
    rfl
  have h4 := rsplitnChar_four '|' _ (c ++ "|" ++ e).data u.data d.data t.data hsplit
  unfold parse_atuin_line
  rw [h4]

/-- C9 witness: the misalignment at a concrete five-field line. -/
theorem parse_atuin_line_five_fields_witness :
    parse_atuin_line ("git status" ++ "|" ++ "0" ++ "|" ++ "123ms" ++ "|" ++ "/home/u" ++ "|" ++ "2024-05-01")
      = some ("git status" ++ "|" ++ "0", "123ms", "/home/u", "2024-05-01") :=
  parse_atuin_line_five_fields "git status" "0" "123ms" "/home/u" "2024-05-01"
    (by decide) (by decide) (by decide) (by decide)

/-! ## Claim theorems for the argument builder and process invoker -/

theorem exit_filter_args_other (o : Option String)
    (h1 : o ≠ some "success") (h2 : o ≠ some "failure") : exit_filter_args o = [] := by
  match o with
  | none => rfl
  | some s =>
    have hs1 : ¬ s = "success" := fun hs => h1 (congrArg some hs)
    have hs2 : ¬ s = "failure" := fun hs => h2 (congrArg some hs)
    simp [exit_filter_args, hs1, hs2]

theorem time_range_args_other (o : Option String)
    (h1 : o ≠ some "1h") (h2 : o ≠ some "24h") (h3 : o ≠ some "7d") (h4 : o ≠ some "30d") :
    time_range_args o = [] := by
  match o with
  | none => rfl
  | some s =>
    have hs1 : ¬ s = "1h" := fun hs => h1 (congrArg some hs)
    have hs2 : ¬ s = "24h" := fun hs => h2 (congrArg some hs)
    have hs3 : ¬ s = "7d" := fun hs => h3 (congrArg some hs)
    have hs4 : ¬ s = "30d" := fun hs => h4 (congrArg some hs)
    simp [time_range_args, hs1, hs2, hs3, hs4]

/-- C3: the filter-to-argument mapping of `atuin_search`:
`exit_filter = "success"` appends exactly `--exit 0`, `"failure"` appends
exactly `--exclude-exit 0`, any other or absent value appends neither;
`time_range` `"1h"`/`"24h"`/`"7d"`/`"30d"` append `--after` with
`"1 hour ago"`/`"1 day ago"`/`"7 days ago"`/`"30 days ago"`, any other or
absent value appends no `--after` flag. -/
theorem atuin_filter_arg_mapping (q : String) (f : SearchFilters) :
    (f.exit_filter = some "success" →
      atuin_args q (some f) = atuin_base_args ++ directory_args f.directory
        ++ ["--exit", "0"] ++ time_range_args f.time_range ++ [q])
  ∧ (f.exit_filter = some "failure" →
      atuin_args q (some f) = atuin_base_args ++ directory_args f.directory
        ++ ["--exclude-exit", "0"] ++ time_range_args f.time_range ++ [q])
  ∧ (f.exit_filter ≠ some "success" → f.exit_filter ≠ some "failure" →
      atuin_args q (some f) = atuin_base_args ++ directory_args f.directory
        ++ time_range_args f.time_range ++ [q])
  ∧ (f.time_range = some "1h" →
      atuin_args q (some f) = atuin_base_args ++ directory_args f.directory
        ++ exit_filter_args f.exit_filter ++ ["--after", "1 hour ago"] ++ [q])
  ∧ (f.time_range = some "24h" →
      atuin_args q (some f) = atuin_base_args ++ directory_args f.directory
        ++ exit_filter_args f.exit_filter ++ ["--after", "1 day ago"] ++ [q])
  ∧ (f.time_range = some "7d" →
      atuin_args q (some f) = atuin_base_args ++ directory_args f.directory
        ++ exit_filter_args f.exit_filter ++ ["--after", "7 days ago"] ++ [q])
  ∧ (f.time_range = some "30d" →
      atuin_args q (some f) = atuin_base_args ++ directory_args f.directory
        ++ exit_filter_args f.exit_filter ++ ["--after", "30 days ago"] ++ [q])
  ∧ (f.time_range ≠ some "1h" → f.time_range ≠ some "24h" →
      f.time_range ≠ some "7d" → f.time_range ≠ some "30d" →
      atuin_args q (some f) = atuin_base_args ++ directory_args f.directory
        ++ exit_filter_args f.exit_filter ++ [q]) := by
  refine ⟨?_, ?_, ?_, ?_, ?_, ?_, ?_, ?_⟩
  · intro h; simp [atuin_args, exit_filter_args, h]
  · intro h; simp [atuin_args, exit_filter_args, h]
  · intro h1 h2; simp [atuin_args, exit_filter_args_other _ h1 h2]
  · intro h; simp [atuin_args, time_range_args, h]
  · intro h; simp [atuin_args, time_range_args, h]
  · intro h; simp [atuin_args, time_range_args, h]
  · intro h; simp [atuin_args, time_range_args, h]
  · intro h1 h2 h3 h4; simp [atuin_args, time_range_args_other _ h1 h2 h3 h4]

/-- C3 witness: the mapping at concrete filter values. -/
theorem atuin_filter_arg_mapping_witness :
    atuin_args "git" (some ⟨none, some "failure", some "24h"⟩)
      = atuin_base_args ++ directory_args none ++ ["--exclude-exit", "0"]
        ++ time_range_args (some "24h") ++ ["git"] :=
  (atuin_filter_arg_mapping "git" ⟨none, some "failure", some "24h"⟩).2.1 rfl

/-- C4: for every query and filters, the argument list starts with the
fixed prefix `search --search-mode prefix --limit 50 --format <template>`
and the query text is the final positional argument, including when the
query is empty. -/
theorem atuin_args_fixed_head_query_last (q : String) (f : Option SearchFilters) :
    (atuin_args q f).take 7 = ["search", "--search-mode", "prefix", "--limit", "50",
        "--format", "{command}|{exit}|{duration}|{directory}|{time}"]
    ∧ (atuin_args q f).getLast? = some q := by
  constructor
  · have hshape : atuin_args q f = atuin_base_args ++
        (directory_args (f.getD SearchFilters.default).directory ++
          (exit_filter_args (f.getD SearchFilters.default).exit_filter ++
            (time_range_args (f.getD SearchFilters.default).time_range ++ [q]))) := by
      simp [atuin_args, List.append_assoc]
    rw [hshape, show (7 : Nat) = atuin_base_args.length from rfl, List.take_left]
    rfl
  · have hshape : atuin_args q f = (atuin_base_args ++
        directory_args (f.getD SearchFilters.default).directory ++
        exit_filter_args (f.getD SearchFilters.default).exit_filter ++
        time_range_args (f.getD SearchFilters.default).time_range) ++ [q] := by
      simp [atuin_args, List.append_assoc]
    rw [hshape, List.getLast?_concat]

/-- C7: the error contract of `atuin_search`: a spawn failure yields an
error embedding the OS error message, a non-zero exit yields an error
containing the captured stderr, success yields `Ok` with the decoded
stdout unless decoding fails, and these are the only failure cases. -/
theorem atuin_search_error_contract (proc : List String → ProcResult)
    (q : String) (f : Option SearchFilters) :
    (∀ e, proc (atuin_args q f) = .spawnErr e →
      atuin_search proc q f = .error ("Failed to execute atuin command: " ++ e))
  ∧ (∀ out, proc (atuin_args q f) = .completed out → out.success = true →
      (∀ s, out.stdout_utf8 = some s → atuin_search proc q f = .ok s)
      ∧ (out.stdout_utf8 = none →
          atuin_search proc q f = .error ("Failed to parse atuin output: " ++ out.stdout_err)))
  ∧ (∀ out, proc (atuin_args q f) = .completed out → out.success = false →
      atuin_search proc q f = .error ("atuin command failed: " ++ out.stderr_lossy))
  ∧ (∀ e, atuin_search proc q f = .error e →
      (∃ e0, proc (atuin_args q f) = .spawnErr e0
        ∧ e = "Failed to execute atuin command: " ++ e0)
      ∨ (∃ out, proc (atuin_args q f) = .completed out ∧ out.success = true
        ∧ out.stdout_utf8 = none ∧ e = "Failed to parse atuin output: " ++ out.stdout_err)
      ∨ (∃ out, proc (atuin_args q f) = .completed out ∧ out.success = false
        ∧ e = "atuin command failed: " ++ out.stderr_lossy)) := by
  refine ⟨?_, ?_, ?_, ?_⟩
  · intro e he; simp [atuin_search, he]
  · intro out hout hs
    constructor
    · intro s hstdout; simp [atuin_search, hout, hs, hstdout]
    · intro hstdout; simp [atuin_search, hout, hs, hstdout]
  · intro out hout hs; simp [atuin_search, hout, hs]
  · intro e he
    unfold atuin_search at he
    match hp : proc (atuin_args q f) with
    | .spawnErr e0 =>
      rw [hp] at he
      simp only [Except.error.injEq] at he
      exact Or.inl ⟨e0, rfl, he.symm⟩
    | .completed out =>
      rw [hp] at he
      have he' : (if out.success = true then
            (match out.stdout_utf8 with
              | some s => Except.ok s
              | none => Except.error ("Failed to parse atuin output: " ++ out.stdout_err))
          else (Except.error ("atuin command failed: " ++ out.stderr_lossy) :
            Except String String)) = Except.error e := he
      by_cases hs : out.success = true
      · rw [if_pos hs] at he'
        match hu : out.stdout_utf8 with
        | some s =>
          rw [hu] at he'
          simp only [] at he'
          exact absurd he' (by simp)
        | none =>
          rw [hu] at he'
          simp only [Except.error.injEq] at he'
          exact Or.inr (Or.inl ⟨out, rfl, hs, hu, he'.symm⟩)
      · rw [if_neg hs] at he'
        simp only [Except.error.injEq] at he'
        exact Or.inr (Or.inr ⟨out, rfl, by simpa using hs, he'.symm⟩)

/-- C7 witness: the contract at a concrete spawn failure. -/
theorem atuin_search_error_contract_witness :
    atuin_search (fun _ => ProcResult.spawnErr "os error 2") "ls" none
      = .error ("Failed to execute atuin command: " ++ "os error 2") :=
  (atuin_search_error_contract (fun _ => ProcResult.spawnErr "os error 2") "ls" none).1
    "os error 2" rfl

/-! ## Lemmas for the serialize/parse round-trip -/

theorem dropWhile_cons_false (p : Char → Bool) (a : Char) (l : List Char) (h : p a = false) :
    (a :: l).dropWhile p = a :: l := by
  simp [List.dropWhile_cons, h]

theorem trimChars_eq_self (l : List Char)
    (hh : ∀ c, l.head? = some c → isWsChar c = false)
    (hl : ∀ c, l.getLast? = some c → isWsChar c = false) : trimChars l = l := by
  cases l with
  | nil => rfl
  | cons a l =>
    have ha : isWsChar a = false := hh a rfl
    unfold trimChars
    rw [dropWhile_cons_false _ _ _ ha]
    match hr : (a :: l).reverse with
    | [] => exact absurd hr (by simp)
    | b :: rb =>
      have hb : (a :: l).getLast? = some b := by
        rw [← List.head?_reverse, hr]
        rfl
      have hbws : isWsChar b = false := hl b hb
      rw [dropWhile_cons_false _ _ _ hbws, ← hr, List.reverse_reverse]

theorem trimChars_cons_ws (a : Char) (l : List Char) (h : isWsChar a = true) :
    trimChars (a :: l) = trimChars l := by
  simp [trimChars, List.dropWhile_cons, h]

theorem takeWhile_all_append (p : Char → Bool) (l : List Char) (y : Char) (r : List Char)
    (hl : ∀ x ∈ l, p x = true) (hy : p y = false) :
    (l ++ y :: r).takeWhile p = l := by
  induction l with
  | nil => simp [List.takeWhile_cons, hy]
  | cons a l ih =>
    have ha := hl a (List.mem_cons_self a l)
    simp [List.takeWhile_cons, ha, ih (fun x hx => hl x (List.mem_cons_of_mem a hx))]

theorem parseValue_quoted (s : List Char) (hs : ∀ ch ∈ s, ch ≠ '"' ∧ ch ≠ '\\') :
    parseValue ('"' :: (s ++ ['"'])) = some (.str (String.mk s)) := by
  have htake : (s ++ '"' :: []).takeWhile (fun c => c ≠ '"' && c ≠ '\\') = s := by
    apply takeWhile_all_append
    · intro x hx
      have h1 := (hs x hx).1
      have h2 := (hs x hx).2
      simp [h1, h2]
    · decide
  simp only [parseValue]
  rw [htake, List.drop_left]
  rfl

theorem parseValue_digits (m : List Char) (h1 : m ≠ []) (h2 : ∀ c ∈ m, c.isDigit = true) :
    parseValue m = some (.nat (digitsVal m)) := by
  match m, h1 with
  | d :: m', _ =>
    have hd : d.isDigit = true := h2 d (List.mem_cons_self d m')
    have hdq : ¬ d = '"' := by
      intro h
      subst h
      exact absurd hd (by decide)
    have hcond : (decide ¬(d :: m' : List Char) = [] && (d :: m').all Char.isDigit) = true := by
      simp [List.all_eq_true]
      exact ⟨hd, fun c hc => h2 c (List.mem_cons_of_mem d hc)⟩
    unfold parseValue
    split
    · rename_i rest heq
      injection heq with hh _
      exact absurd hh hdq
    · rw [if_pos hcond]

theorem splitOnChar_append_of_not_mem (c : Char) (x ys : List Char) (hx : c ∉ x) :
    splitOnChar c (x ++ c :: ys) = x :: splitOnChar c ys := by
  rw [splitOnChar_append, splitOnChar_of_not_mem c x hx]
  rfl

theorem splitOnChar_joinWith (c : Char) (ls : List (List Char)) (h : ls ≠ [])
    (hl : ∀ l ∈ ls, c ∉ l) : splitOnChar c (joinWith c ls) = ls := by
  induction ls with
  | nil => exact absurd rfl h
  | cons a ls ih =>
    cases ls with
    | nil => exact splitOnChar_of_not_mem c a (hl a (List.mem_cons_self a []))
    | cons b t =>
      rw [joinWith_cons₂, splitOnChar_append_of_not_mem c a _ (hl a (List.mem_cons_self a _)),
        ih (by simp) (fun l hm => hl l (List.mem_cons_of_mem a hm))]

theorem mem_of_head?_eq (l : List Char) (c : Char) (h : l.head? = some c) : c ∈ l := by
  cases l with
  | nil => exact Option.noConfusion h
  | cons a t =>
    have ha : a = c := Option.some.inj h
    subst ha
    exact List.mem_cons_self a t

theorem getLast?_append_right (l₁ l₂ : List Char) (h : l₂ ≠ []) :
    (l₁ ++ l₂).getLast? = l₂.getLast? := by
  rw [List.getLast?_append]
  match l₂, h with
  | a :: t, _ =>
    match hl : (a :: t).getLast? with
    | some b => rfl
    | none =>
      have : a :: t = [] := by
        have h2 := List.head?_reverse (a :: t)
        rw [hl] at h2
        cases hr : (a :: t).reverse with
        | nil => exact absurd (congrArg List.reverse hr) (by simp)
        | cons x xs => rw [hr] at h2; exact Option.noConfusion h2
      exact absurd this (by simp)

theorem splitAtFirst_append (k : List Char) (hk : '=' ∉ k) (v : List Char) :
    splitAtFirst '=' (k ++ '=' :: v) = some (k, v) := by
  have htake : (k ++ '=' :: v).takeWhile (fun x => x ≠ '=') = k := by
    apply takeWhile_all_append
    · intro x hx
      have : x ≠ '=' := fun hxe => hk (hxe ▸ hx)
      simp [this]
    · decide
  simp only [splitAtFirst]
  rw [htake, List.drop_left]

/-- A well-shaped `key = value` line parses to the trimmed key paired with
the parsed trimmed value. -/
theorem parseLine_kv (k v : List Char)
    (hhead : ∀ c, (k ++ '=' :: v).head? = some c → isWsChar c = false ∧ c ≠ '#')
    (hlast : ∀ c, (k ++ '=' :: v).getLast? = some c → isWsChar c = false)
    (hkeq : '=' ∉ k) :
    parseLine (k ++ '=' :: v) =
      (if trimChars k = [] then none
       else match parseValue (trimChars v) with
         | some tv => some (some (String.mk (trimChars k), tv))
         | none => none) := by
  have htrim : trimChars (k ++ '=' :: v) = k ++ '=' :: v :=
    trimChars_eq_self _ (fun c hc => (hhead c hc).1) hlast
  have hne : k ++ '=' :: v ≠ [] := by
    cases k with
    | nil => simp
    | cons a t => simp
  have hhash : ¬ (k ++ '=' :: v).head? = some '#' := by
    intro hcontra
    exact absurd rfl (hhead '#' hcontra).2
  simp only [parseLine]
  rw [htrim, if_neg hne, if_neg hhash, splitAtFirst_append k hkeq v]

theorem parseLine_shortcut (s : List Char)
    (hs : ∀ ch ∈ s, ch ≠ '"' ∧ ch ≠ '\\') :
    parseLine ("shortcut = \"".data ++ (s ++ ['"']))
      = some (some ("shortcut", .str (String.mk s))) := by
  have hline : "shortcut = \"".data ++ (s ++ ['"'])
      = "shortcut ".data ++ '=' :: (' ' :: ('"' :: (s ++ ['"']))) := by
    rw [show ("shortcut = \"".data : List Char)
        = "shortcut ".data ++ ('=' :: [' ', '"']) from by decide, List.append_assoc]
    rfl
  rw [hline, parseLine_kv]
  · rw [if_neg (by decide), trimChars_cons_ws _ _ (by decide),
      trimChars_eq_self ('"' :: (s ++ ['"']))
        (fun c hc => by rw [← Option.some.inj hc]; decide)
        (fun c hc => by
          rw [show ('"' :: (s ++ ['"']) : List Char) = ('"' :: s) ++ ['"'] from by
              rw [List.cons_append], List.getLast?_concat] at hc
          rw [← Option.some.inj hc]
          decide),
      parseValue_quoted s hs]
    rfl
  · intro c hc
    rw [show ("shortcut ".data ++ '=' :: (' ' :: ('"' :: (s ++ ['"']))) : List Char).head?
        = some 's' from rfl] at hc
    rw [← Option.some.inj hc]
    exact ⟨by decide, by decide⟩
  · intro c hc
    rw [show ("shortcut ".data ++ '=' :: (' ' :: ('"' :: (s ++ ['"']))) : List Char)
        = ("shortcut = \"".data ++ s) ++ ['"'] from by rw [← hline, List.append_assoc],
      List.getLast?_concat] at hc
    rw [← Option.some.inj hc]
    decide
  · decide

theorem parseLine_theme (s : List Char)
    (hs : ∀ ch ∈ s, ch ≠ '"' ∧ ch ≠ '\\') :
    parseLine ("theme = \"".data ++ (s ++ ['"']))
      = some (some ("theme", .str (String.mk s))) := by
  have hline : "theme = \"".data ++ (s ++ ['"'])
      = "theme ".data ++ '=' :: (' ' :: ('"' :: (s ++ ['"']))) := by
    rw [show ("theme = \"".data : List Char)
        = "theme ".data ++ ('=' :: [' ', '"']) from by decide, List.append_assoc]
    rfl
  rw [hline, parseLine_kv]
  · rw [if_neg (by decide), trimChars_cons_ws _ _ (by decide),
      trimChars_eq_self ('"' :: (s ++ ['"']))
        (fun c hc => by rw [← Option.some.inj hc]; decide)
        (fun c hc => by
          rw [show ('"' :: (s ++ ['"']) : List Char) = ('"' :: s) ++ ['"'] from by
              rw [List.cons_append], List.getLast?_concat] at hc
          rw [← Option.some.inj hc]
          decide),
      parseValue_quoted s hs]
    rfl
  · intro c hc
    rw [show ("theme ".data ++ '=' :: (' ' :: ('"' :: (s ++ ['"']))) : List Char).head?
        = some 't' from rfl] at hc
    rw [← Option.some.inj hc]
    exact ⟨by decide, by decide⟩
  · intro c hc
    rw [show ("theme ".data ++ '=' :: (' ' :: ('"' :: (s ++ ['"']))) : List Char)
        = ("theme = \"".data ++ s) ++ ['"'] from by rw [← hline, List.append_assoc],
      List.getLast?_concat] at hc
    rw [← Option.some.inj hc]
    decide
  · decide

theorem parseLine_max_results (n : Nat) :
    parseLine ("max_results = ".data ++ digitsRep n)
      = some (some ("max_results", .nat n)) := by
  have hmne : digitsRep n ≠ [] := digitsRep_ne_nil n
  have hdig := digitsRep_all_digit n
  have hline : "max_results = ".data ++ digitsRep n
      = "max_results ".data ++ '=' :: (' ' :: digitsRep n) := by
    rw [show ("max_results = ".data : List Char)
        = "max_results ".data ++ ('=' :: [' ']) from by decide, List.append_assoc]
    rfl
  rw [hline, parseLine_kv]
  · rw [if_neg (by decide), trimChars_cons_ws _ _ (by decide),
      trimChars_eq_self (digitsRep n)
        (fun c hc => (isDigit_char_facts c (hdig c (mem_of_head?_eq _ c hc))).2.2.2.1)
        (fun c hc =>
          (isDigit_char_facts c (hdig c (List.mem_of_getLast?_eq_some hc))).2.2.2.1),
      parseValue_digits (digitsRep n) hmne hdig, digitsVal_digitsRep]
    rfl
  · intro c hc
    rw [show ("max_results ".data ++ '=' :: (' ' :: digitsRep n) : List Char).head?
        = some 'm' from rfl] at hc
    rw [← Option.some.inj hc]
    exact ⟨by decide, by decide⟩
  · intro c hc
    rw [show ("max_results ".data ++ '=' :: (' ' :: digitsRep n) : List Char)
        = "max_results = ".data ++ digitsRep n from hline.symm,
      getLast?_append_right _ _ hmne] at hc
    exact (isDigit_char_facts c (hdig c (List.mem_of_getLast?_eq_some hc))).2.2.2.1
  · decide

theorem parseLine_window_width (n : Nat) :
    parseLine ("window_width = ".data ++ digitsRep n)
      = some (some ("window_width", .nat n)) := by
  have hmne : digitsRep n ≠ [] := digitsRep_ne_nil n
  have hdig := digitsRep_all_digit n
  have hline : "window_width = ".data ++ digitsRep n
      = "window_width ".data ++ '=' :: (' ' :: digitsRep n) := by
    rw [show ("window_width = ".data : List Char)
        = "window_width ".data ++ ('=' :: [' ']) from by decide, List.append_assoc]
    rfl
  rw [hline, parseLine_kv]
  · rw [if_neg (by decide), trimChars_cons_ws _ _ (by decide),
      trimChars_eq_self (digitsRep n)
        (fun c hc => (isDigit_char_facts c (hdig c (mem_of_head?_eq _ c hc))).2.2.2.1)
        (fun c hc =>
          (isDigit_char_facts c (hdig c (List.mem_of_getLast?_eq_some hc))).2.2.2.1),
      parseValue_digits (digitsRep n) hmne hdig, digitsVal_digitsRep]
    rfl
  · intro c hc
    rw [show ("window_width ".data ++ '=' :: (' ' :: digitsRep n) : List Char).head?
        = some 'w' from rfl] at hc
    rw [← Option.some.inj hc]
    exact ⟨by decide, by decide⟩
  · intro c hc
    rw [show ("window_width ".data ++ '=' :: (' ' :: digitsRep n) : List Char)
        = "window_width = ".data ++ digitsRep n from hline.symm,
      getLast?_append_right _ _ hmne] at hc
    exact (isDigit_char_facts c (hdig c (List.mem_of_getLast?_eq_some hc))).2.2.2.1
  · decide

theorem joinWith_one (c : Char) (x : List Char) : joinWith c [x] = x := rfl

theorem serialize_data_eq (c : Config) :
    (serialize_config c).data = joinWith '\n'
      ["# Atuin Bar Configuration".data,
       [],
       "# Global shortcut to toggle the window".data,
       "# Examples: \"CommandOrControl+Shift+Space\", \"Alt+Space\", \"Super+H\"".data,
       "shortcut = \"".data ++ (c.shortcut.data ++ ['"']),
       [],
       "# Theme: \"dark\" or \"light\" (default: \"dark\")".data,
       "theme = \"".data ++ (c.theme.data ++ ['"']),
       [],
       "# Maximum number of results to display (default: 20)".data,
       "max_results = ".data ++ digitsRep c.max_results,
       [],
       "# Window width in pixels (default: 700)".data,
       "window_width = ".data ++ digitsRep c.window_width,
       []] := by
  set_option maxRecDepth 4096 in
  simp only [serialize_config, String.data_append, toString_nat_data, joinWith_cons₂,
    joinWith_one, List.append_assoc, List.cons_append, List.nil_append,
    List.singleton_append]



theorem toml_serialize_roundtrip (macos : Bool) (c : Config)
    (hsc : ∀ ch ∈ c.shortcut.data, ch ≠ '"' ∧ ch ≠ '\\' ∧ ch ≠ '\n')
    (hth : ∀ ch ∈ c.theme.data, ch ≠ '"' ∧ ch ≠ '\\' ∧ ch ≠ '\n') :
    toml_from_str macos (serialize_config c) = some c := by
  have hs' : ∀ ch ∈ c.shortcut.data, ch ≠ '"' ∧ ch ≠ '\\' :=
    fun ch h => ⟨(hsc ch h).1, (hsc ch h).2.1⟩
  have ht' : ∀ ch ∈ c.theme.data, ch ≠ '"' ∧ ch ≠ '\\' :=
    fun ch h => ⟨(hth ch h).1, (hth ch h).2.1⟩
  have hnl_sc : ('\n' : Char) ∉ c.shortcut.data := fun h => (hsc _ h).2.2 rfl
  have hnl_th : ('\n' : Char) ∉ c.theme.data := fun h => (hth _ h).2.2 rfl
  have hnl_m : ∀ n : Nat, ('\n' : Char) ∉ digitsRep n := fun n h =>
    (isDigit_char_facts _ (digitsRep_all_digit n _ h)).1 rfl
  have hkv_sc : ('\n' : Char) ∉ "shortcut = \"".data ++ (c.shortcut.data ++ ['"']) := by
    intro h
    rcases List.mem_append.mp h with h | h
    · exact absurd h (by decide)
    · rcases List.mem_append.mp h with h | h
      · exact hnl_sc h
      · exact absurd h (by decide)
  have hkv_th : ('\n' : Char) ∉ "theme = \"".data ++ (c.theme.data ++ ['"']) := by
    intro h
    rcases List.mem_append.mp h with h | h
    · exact absurd h (by decide)
    · rcases List.mem_append.mp h with h | h
      · exact hnl_th h
      · exact absurd h (by decide)
  have hkv_m : ('\n' : Char) ∉ "max_results = ".data ++ digitsRep c.max_results := by
    intro h
    rcases List.mem_append.mp h with h | h
    · exact absurd h (by decide)
    · exact hnl_m _ h
  have hkv_w : ('\n' : Char) ∉ "window_width = ".data ++ digitsRep c.window_width := by
    intro h
    rcases List.mem_append.mp h with h | h
    · exact absurd h (by decide)
    · exact hnl_m _ h
  have hsplit : splitOnChar '\n' (serialize_config c).data =
      ["# Atuin Bar Configuration".data,
       [],
       "# Global shortcut to toggle the window".data,
       "# Examples: \"CommandOrControl+Shift+Space\", \"Alt+Space\", \"Super+H\"".data,
       "shortcut = \"".data ++ (c.shortcut.data ++ ['"']),
       [],
       "# Theme: \"dark\" or \"light\" (default: \"dark\")".data,
       "theme = \"".data ++ (c.theme.data ++ ['"']),
       [],
       "# Maximum number of results to display (default: 20)".data,
       "max_results = ".data ++ digitsRep c.max_results,
       [],
       "# Window width in pixels (default: 700)".data,
       "window_width = ".data ++ digitsRep c.window_width,
       []] := by
    rw [serialize_data_eq]
    apply splitOnChar_joinWith
    · simp
    · intro l hl
      fin_cases hl
      · decide
      · decide
      · decide
      · decide
      · exact hkv_sc
      · decide
      · decide
      · exact hkv_th
      · decide
      · decide
      · exact hkv_m
      · decide
      · decide
      · exact hkv_w
      · decide
  have p0 : parseLine "# Atuin Bar Configuration".data = some none := by decide
  have pb : parseLine ([] : List Char) = some none := rfl
  have p2 : parseLine "# Global shortcut to toggle the window".data = some none := by decide
  have p3 : parseLine "# Examples: \"CommandOrControl+Shift+Space\", \"Alt+Space\", \"Super+H\"".data = some none := by decide
  have p6 : parseLine "# Theme: \"dark\" or \"light\" (default: \"dark\")".data = some none := by decide
  have p9 : parseLine "# Maximum number of results to display (default: 20)".data = some none := by decide
  have p12 : parseLine "# Window width in pixels (default: 700)".data = some none := by decide
  have p4 := parseLine_shortcut c.shortcut.data hs'
  have p7 := parseLine_theme c.theme.data ht'
  have p10 := parseLine_max_results c.max_results
  have p13 := parseLine_window_width c.window_width
  simp only [toml_from_str]
  rw [hsplit]
  simp only [List.mapM_cons, List.mapM_nil, p0, pb, p2, p3, p4, p6, p7, p9, p10, p12, p13]
  rfl

/-! ## Claim theorems for the config store -/

/-- C1: `load_config` never fails — it is a total function into `Config` —
and on every failing file state (unresolvable config directory, missing
file, read error, or unparsable contents) it returns the documented
default record: platform-conditional shortcut, theme "dark",
max_results 20, window_width 700. -/
theorem load_config_never_fails (macos : Bool) (fs : FsState)
    (h : fs = .noConfigDir ∨ fs = .missing ∨ fs = .readError ∨
      ∃ s, fs = .content s ∧ toml_from_str macos s = none) :
    (load_config macos fs).1 =
      { shortcut := if macos then "CommandOrControl+Shift+Space" else "Control+Shift+Space",
        theme := "dark", max_results := 20, window_width := 700 } := by
  have hdef : (load_config macos fs).1 = Config.default macos := by
    rcases h with rfl | rfl | rfl | ⟨s, rfl, hs⟩
    · rfl
    · rfl
    · rfl
    · simp [load_config, hs]
  rw [hdef]
  rfl

/-- C1 witness: the default record on a concrete unparsable file. -/
theorem load_config_never_fails_witness :
    (load_config true (.content "not toml ]][[")).1 =
      { shortcut := if true then "CommandOrControl+Shift+Space" else "Control+Shift+Space",
        theme := "dark", max_results := 20, window_width := 700 } :=
  load_config_never_fails true (.content "not toml ]][[")
    (Or.inr (Or.inr (Or.inr ⟨"not toml ]][[", rfl, by decide⟩)))

/-- Helper: on any state with a resolvable config directory and a
successful write, `update_config` returns the overlaid record and leaves
the serialized record on disk. -/
theorem update_config_ok (macos : Bool) (fs : FsState) (h : fs ≠ .noConfigDir)
    (sc th : Option String) (mr ww : Option Nat) :
    update_config macos fs true sc th mr ww =
      .ok (apply_updates (load_config macos fs).1 sc th mr ww,
        .content (serialize_config (apply_updates (load_config macos fs).1 sc th mr ww))) := by
  cases fs with
  | noConfigDir => exact absurd rfl h
  | missing => rfl
  | readError => rfl
  | content s => rfl

/-- C5: the frame property of `update_config`: whenever the config
directory resolves and the write succeeds it returns `Ok` with exactly
the provided fields replacing the re-loaded current state and every
other field unchanged; and it fails exactly when the config directory
cannot be determined or the write fails. -/
theorem update_config_frame (macos : Bool) (fs : FsState) (writeOk : Bool)
    (sc th : Option String) (mr ww : Option Nat) :
    (fs ≠ .noConfigDir → writeOk = true →
      ∃ c' fs', update_config macos fs writeOk sc th mr ww = .ok (c', fs')
        ∧ c'.shortcut = sc.getD (load_config macos fs).1.shortcut
        ∧ c'.theme = th.getD (load_config macos fs).1.theme
        ∧ c'.max_results = mr.getD (load_config macos fs).1.max_results
        ∧ c'.window_width = ww.getD (load_config macos fs).1.window_width)
  ∧ ((fs = .noConfigDir ∨ writeOk = false) →
      ∃ e, update_config macos fs writeOk sc th mr ww = .error e) := by
  constructor
  · intro h hw
    subst hw
    exact ⟨_, _, update_config_ok macos fs h sc th mr ww, rfl, rfl, rfl, rfl⟩
  · rintro (rfl | rfl)
    · exact ⟨_, rfl⟩
    · cases fs with
      | noConfigDir => exact ⟨_, rfl⟩
      | missing => exact ⟨_, rfl⟩
      | readError => exact ⟨_, rfl⟩
      | content s => exact ⟨_, rfl⟩

/-- C5 witness: the frame property at a concrete state and a concrete
partial update. -/
theorem update_config_frame_witness :
    ∃ c' fs', update_config true (.content default_config_template) true
        none (some "light") none (some 800) = .ok (c', fs')
      ∧ c'.shortcut = (none : Option String).getD
          (load_config true (.content default_config_template)).1.shortcut
      ∧ c'.theme = (some "light").getD
          (load_config true (.content default_config_template)).1.theme
      ∧ c'.max_results = (none : Option Nat).getD
          (load_config true (.content default_config_template)).1.max_results
      ∧ c'.window_width = (some 800).getD
          (load_config true (.content default_config_template)).1.window_width :=
  (update_config_frame true (.content default_config_template) true
    none (some "light") none (some 800)).1 (by decide) rfl

/-- C6: updating with the single override `theme = "light"` on a state
whose current config is the default record returns the default record
with only the theme replaced, and re-loading after the update returns
that exact record. -/
theorem update_theme_light_roundtrip (macos : Bool) (fs : FsState)
    (h : fs ≠ FsState.noConfigDir)
    (hload : (load_config macos fs).1 = Config.default macos) :
    ∃ fs', update_config macos fs true none (some "light") none none
        = .ok ({ Config.default macos with theme := "light" }, fs')
      ∧ (load_config macos fs').1 = { Config.default macos with theme := "light" } := by
  have hok := update_config_ok macos fs h none (some "light") none none
  rw [hload] at hok
  have hcfg : apply_updates (Config.default macos) none (some "light") none none
      = { Config.default macos with theme := "light" } := rfl
  rw [hcfg] at hok
  refine ⟨_, hok, ?_⟩
  have hparse : toml_from_str macos
      (serialize_config { Config.default macos with theme := "light" })
      = some { Config.default macos with theme := "light" } := by
    cases macos <;> decide
  simp [load_config, hparse]

/-- C6 witness: the write-then-reload round-trip at a concrete state
loading to the default record. -/
theorem update_theme_light_roundtrip_witness :
    ∃ fs', update_config true (.content default_config_template) true
        none (some "light") none none
        = .ok ({ Config.default true with theme := "light" }, fs')
      ∧ (load_config true fs').1 = { Config.default true with theme := "light" } :=
  update_theme_light_roundtrip true (.content default_config_template)
    (by decide) (by decide)

/-- C8 counterexample: on a non-Apple platform the claim fails — the file
written on first load carries the fixed shortcut
`"CommandOrControl+Shift+Space"`, so parsing it does not yield the
platform default record, whose shortcut is `"Control+Shift+Space"`. -/
theorem load_first_run_template_counterexample :
    (load_config false .missing).2 = .content default_config_template
    ∧ toml_from_str false default_config_template ≠ some (Config.default false) := by
  exact ⟨rfl, by decide⟩

/-- C8 (amended): on first load with the file absent and the directory
resolvable, `load_config` writes the commented default template; parsing
it yields theme "dark", max_results 20, window_width 700 and the fixed
shortcut `"CommandOrControl+Shift+Space"` — which coincides with the
platform-conditional default record exactly on Apple platforms. -/
theorem load_first_run_writes_default_template (macos : Bool) :
    (load_config macos .missing).2 = .content default_config_template
    ∧ toml_from_str macos default_config_template
        = some { shortcut := "CommandOrControl+Shift+Space", theme := "dark",
                 max_results := 20, window_width := 700 }
    ∧ (toml_from_str macos default_config_template = some (Config.default macos)
        ↔ macos = true) := by
  cases macos
  · exact ⟨rfl, by decide, by decide⟩
  · exact ⟨rfl, by decide, by decide⟩


/-- C10: `update_config` interpolates the string fields into the TOML
template with no escaping: for every config whose string fields contain
no double-quote, backslash or newline, the written file parses back to
the same record; but updating the theme to a value containing a
double-quote returns `Ok` while the written file is malformed, so a
subsequent load returns the default record instead of the updated one. -/
theorem update_config_no_escaping (macos : Bool) (c : Config)
    (hsc : ∀ ch ∈ c.shortcut.data, ch ≠ '"' ∧ ch ≠ '\\' ∧ ch ≠ '\n')
    (hth : ∀ ch ∈ c.theme.data, ch ≠ '"' ∧ ch ≠ '\\' ∧ ch ≠ '\n') :
    toml_from_str macos (serialize_config c) = some c
    ∧ (∃ cfg w, update_config true (.content default_config_template) true
          none (some "li\"ght") none none = .ok (cfg, .content w)
        ∧ toml_from_str true w = none
        ∧ (load_config true (.content w)).1 = Config.default true
        ∧ cfg ≠ Config.default true) := by
  refine ⟨toml_serialize_roundtrip macos c hsc hth,
    ⟨{ Config.default true with theme := "li\"ght" },
     serialize_config { Config.default true with theme := "li\"ght" }, ?_, ?_, ?_, ?_⟩⟩
  · rfl
  · decide
  · decide
  · decide

/-- C10 witness: the round-trip at the concrete default record together
with the concrete quote-in-theme failure. -/
theorem update_config_no_escaping_witness :
    toml_from_str false (serialize_config (Config.default false)) = some (Config.default false)
    ∧ (∃ cfg w, update_config true (.content default_config_template) true
          none (some "li\"ght") none none = .ok (cfg, .content w)
        ∧ toml_from_str true w = none
        ∧ (load_config true (.content w)).1 = Config.default true
        ∧ cfg ≠ Config.default true) :=
  update_config_no_escaping false (Config.default false) (by decide) (by decide)

end AtuinBar
